import Mathlib

/-!
Shallow embedding of the interpreter generator in
`src/sage_setup/autogen/interpreters/generator.py`.

The generator walks an `InterpreterSpec` (instruction catalog plus memory
chunks) and emits C interpreter source and a Cython wrapper by calling a
`write` callback with successive text fragments.  We embed each distinct
`w(...)` call site of `InterpreterGenerator.gen_code`, `write_interpreter`
and `write_wrapper` as a constructor of an inductive line type carrying the
data interpolated into that fragment; the generator functions then become
pure Lean functions producing lists of such lines, together with the
`uses_error_handler` flag that the Python object mutates, and a success
bit modelling the `assert i == 0` in `gen_code` (a failing Python assert
aborts emission after the fragments already written).
-/

/-- Storage type of a memory chunk (`StorageType` in the repository).
Only the attributes consulted by `generator.py` are embedded: the C type
strings and the `cheap_copies` / `python_refcounted` predicates. -/
structure StorageType where
  c_local_type : String
  c_ptr_type : String
  cheap_copies : Bool
  python_refcounted : Bool
deriving DecidableEq

/-- A memory chunk (`MemoryChunk` in the repository): a named region with a
storage type and an addressing discipline (stack vs indexed). -/
structure MemoryChunk where
  name : String
  storage_type : StorageType
  is_stack : Bool
deriving DecidableEq

/-- Modelled from the spec: the memory-chunk module is not among the given
source files; per the spec a chunk is a reference-counted stack when it is
stack-addressed and its storage type is a Python reference-counted type
(`generator.py` only calls this predicate). -/
def MemoryChunk.is_python_refcounted_stack (ch : MemoryChunk) : Bool :=
  ch.is_stack && ch.storage_type.python_refcounted

/-- Modelled from the spec: chunks needing cleanup on error are exactly the
chunks "whose type is reference-counted and used as a stack" (spec section
4.3); `generator.py` only calls the predicate `needs_cleanup_on_error`. -/
def MemoryChunk.needs_cleanup_on_error (ch : MemoryChunk) : Bool :=
  ch.is_python_refcounted_stack

/-- An address or length operand of an instruction binding: either a literal
integer or a value read from the instruction stream chunk. -/
inductive Addr
  | imm (n : Int)
  | stream (chunkName : String)
deriving DecidableEq

/-- Modelled from the spec: `string_of_addr` of the memory module renders an
operand; a literal renders as its decimal text, an operand taken from the
immediate instruction stream renders as a post-incrementing read of the
stream cursor. -/
def string_of_addr : Addr → String
  | .imm n => toString n
  | .stream nm => "*" ++ nm ++ "++"

/-- One input or output binding of an instruction: the chunk it lives in,
an optional address operand and an optional length operand (the Python code
uses `(chunk, addr, len)` triples). -/
structure Binding where
  chunk : MemoryChunk
  addr : Option Addr
  len : Option Addr
deriving DecidableEq

/-- An instruction description (`InstrSpec` in the repository), restricted
to the attributes `gen_code` consults. -/
structure InstrSpec where
  name : String
  opcode : Nat
  inputs : List Binding
  outputs : List Binding
  code : String
  uses_error_handler : Bool
  handles_own_decref : Bool
deriving DecidableEq

/-- An interpreter specification (`InterpreterSpec` in the repository),
restricted to the attributes `write_interpreter` / `write_wrapper` consult.
`return_type` holds the declared C return type when present, `err_return`
the error sentinel text. -/
structure InterpreterSpec where
  name : String
  chunks : List MemoryChunk
  instr_descs : List InstrSpec
  return_type : Option String
  err_return : String
  adjust_retval : Option String
  implement_call_c : Bool
deriving DecidableEq

/-- The generator object (`InterpreterGenerator.__init__`, generator.py
lines 36-55): construction merely stores the spec and initializes the
`uses_error_handler` flag to `False`; no validation is performed. -/
structure InterpreterGenerator where
  _spec : InterpreterSpec
  uses_error_handler : Bool
deriving DecidableEq

/-- Construct an `InterpreterGenerator` from a spec (generator.py lines
54-55). -/
def mkInterpreterGenerator (spec : InterpreterSpec) : InterpreterGenerator :=
  ⟨spec, false⟩

/-- One emitted fragment of interpreter source.  Each constructor matches
one `w(...)` call site in `gen_code` / `write_interpreter` of generator.py
(line numbers in comments) and carries the data interpolated there. -/
inductive Line
  | caseHeader (opcode : Nat) (name : String)       -- lines 101-104
  | declAI (i : Nat) (a : String)                   -- line 121
  | declNI (i : Nat) (a : String)                   -- line 123
  | bindCodeIn (ty : String) (i : Nat) (a : String) -- line 127
  | bindSliceIn (ty : String) (i : Nat) (ch : String)   -- lines 129-130
  | bindIndexedIn (ty : String) (i : Nat) (ch : String) -- lines 132-133
  | stackShrinkIn (ch : String) (i : Nat)           -- line 140
  | bindStackSliceIn (ty : String) (i : Nat) (ch : String) -- line 141
  | popIn (ty : String) (i : Nat) (ch : String)     -- line 143
  | nullTopSlot (ch : String)                       -- line 145
  | declAO (i : Nat) (a : String)                   -- line 151
  | declNO (i : Nat) (a : String)                   -- line 153
  | bindStackSliceOut (ty : String) (i : Nat) (ch : String) -- lines 155-156
  | stackGrowOut (ch : String) (i : Nat)            -- line 157
  | bindSliceOut (ty : String) (i : Nat) (ch : String)  -- lines 159-160
  | popBindOut (ty : String) (i : Nat) (ch : String)    -- lines 164-165
  | bindIndexedOut (ty : String) (i : Nat) (ch : String) -- lines 167-168
  | declOut (ty : String) (i : Nat)                 -- line 170
  | bodyCode (code : String)                        -- line 171
  | decref (i : Nat)                                -- line 179
  | clearLoop (iter : String) (i : Nat)             -- lines 182-187
  | checkOutBegin (i : Nat)                         -- line 197
  | xdecrefOut (i : Nat)                            -- line 198
  | gotoError                                       -- line 199
  | checkOutEnd                                     -- line 200
  | pushOut (ch : String) (i : Nat)                 -- line 204
  | storeIndexedOut (ch : String) (i : Nat)         -- line 206
  | caseFooter                                      -- lines 208-212
  | interpHeader (name : String)                    -- lines 275-283
  | switchEnd                                       -- lines 287-289
  | errorLabel (err : String)                       -- lines 290-293
  | interpEnd                                       -- lines 294-296
deriving DecidableEq

/-- Fragments written for input number `i` in the forward pass over inputs
(generator.py lines 117-133): address and length operand declarations, and
the binding of a non-stack input (immediate-stream, sliced or indexed). -/
def emitFwdInput (i : Nat) (b : Binding) : List Line :=
  (match b.addr with
   | some a => [Line.declAI i (string_of_addr a)]
   | none => []) ++
  (match b.len with
   | some a => [Line.declNI i (string_of_addr a)]
   | none => []) ++
  (if b.chunk.is_stack then []
   else if b.chunk.name == "code" then
     [Line.bindCodeIn b.chunk.storage_type.c_local_type i
        (string_of_addr (Addr.stream b.chunk.name))]
   else match b.len with
     | some _ => [Line.bindSliceIn b.chunk.storage_type.c_ptr_type i b.chunk.name]
     | none => [Line.bindIndexedIn b.chunk.storage_type.c_local_type i b.chunk.name])

/-- The forward pass over the inputs (generator.py lines 117-133), with `k`
the index of the first binding in `l`. -/
def fwdPass (k : Nat) : List Binding → List Line
  | [] => []
  | b :: t => emitFwdInput k b ++ fwdPass (k + 1) t

/-- Fragments written for input number `i` in the reverse pass over inputs
(generator.py lines 135-145): stack inputs are popped (a slice adjusts the
stack pointer and binds it; a plain input pops one value, and on a Python
reference-counted stack the vacated slot is set to NULL). -/
def emitRevInput (i : Nat) (b : Binding) : List Line :=
  if b.chunk.is_stack then
    match b.len with
    | some _ =>
      [Line.stackShrinkIn b.chunk.name i,
       Line.bindStackSliceIn b.chunk.storage_type.c_ptr_type i b.chunk.name]
    | none =>
      Line.popIn b.chunk.storage_type.c_local_type i b.chunk.name ::
      (if b.chunk.is_python_refcounted_stack then [Line.nullTopSlot b.chunk.name] else [])
  else []

/-- The reverse pass over the inputs (generator.py lines 135-145): the
Python loop runs `i` over `reversed(range(len(d.inputs)))`, so the binding
with the highest index is emitted first. -/
def revPass (k : Nat) : List Binding → List Line
  | [] => []
  | b :: t => revPass (k + 1) t ++ emitRevInput k b

/-- Fragments written for output number `i` before the body (generator.py
lines 147-170): address/length declarations, slice or pre-bound destination
bindings for non-cheap-copy types, or a fresh local for cheap-copy types. -/
def emitOutputSetup (i : Nat) (b : Binding) : List Line :=
  (match b.addr with
   | some a => [Line.declAO i (string_of_addr a)]
   | none => []) ++
  (match b.len with
   | some a =>
     Line.declNO i (string_of_addr a) ::
     (if b.chunk.is_stack then
        [Line.bindStackSliceOut b.chunk.storage_type.c_ptr_type i b.chunk.name,
         Line.stackGrowOut b.chunk.name i]
      else [Line.bindSliceOut b.chunk.storage_type.c_ptr_type i b.chunk.name])
   | none =>
     if b.chunk.storage_type.cheap_copies then
       [Line.declOut b.chunk.storage_type.c_local_type i]
     else if b.chunk.is_stack then
       [Line.popBindOut b.chunk.storage_type.c_local_type i b.chunk.name]
     else
       [Line.bindIndexedOut b.chunk.storage_type.c_local_type i b.chunk.name])

/-- The output-setup pass (generator.py lines 147-170). -/
def setupPass (k : Nat) : List Binding → List Line
  | [] => []
  | b :: t => emitOutputSetup k b ++ setupPass (k + 1) t

/-- Fragments written for input number `i` in the release pass after the
body (generator.py lines 173-187): a `Py_DECREF` for a plain consumed input
on a Python reference-counted stack, or a loop of `Py_CLEAR` over the slice
for a length-bearing one, unless the instruction handles its own decref. -/
def emitDecref (hod : Bool) (i : Nat) (b : Binding) : List Line :=
  if b.chunk.is_python_refcounted_stack && !hod then
    match b.len with
    | none => [Line.decref i]
    | some _ => [Line.clearLoop ("_interp_iter_" ++ toString i) i]
  else []

/-- The release pass over the inputs (generator.py lines 173-187). -/
def decrefPass (hod : Bool) (k : Nat) : List Binding → List Line
  | [] => []
  | b :: t => emitDecref hod k b ++ decrefPass hod (k + 1) t

/-- The check-and-store pass over the outputs (generator.py lines 189-206),
threading the `uses_error_handler` flag.  A Python reference-counted output
is first subject to `assert i == 0` (line 196): on failure the Python
function raises, aborting emission, which we model by the third component
turning `false` with no further fragments.  Otherwise the validation block
(`if (!CHECK(o_i)) { Py_XDECREF(o_i); goto error; }`) is written and the
flag set; a cheap-copy output is then stored to its destination. -/
def storePass (k : Nat) (ueh : Bool) : List Binding → List Line × Bool × Bool
  | [] => ([], ueh, true)
  | b :: t =>
    let storeLs : List Line :=
      if b.chunk.storage_type.cheap_copies then
        [if b.chunk.is_stack then Line.pushOut b.chunk.name k
         else Line.storeIndexedOut b.chunk.name k]
      else []
    if b.chunk.storage_type.python_refcounted then
      if k ≠ 0 then ([], ueh, false)
      else
        let r := storePass (k + 1) true t
        ([Line.checkOutBegin k, Line.xdecrefOut k, Line.gotoError, Line.checkOutEnd] ++
           storeLs ++ r.1, r.2.1, r.2.2)
    else
      let r := storePass (k + 1) ueh t
      (storeLs ++ r.1, r.2.1, r.2.2)

/-- `InterpreterGenerator.gen_code` (generator.py lines 57-212) for one
instruction: the emitted fragments, the resulting `uses_error_handler`
flag (input flag `ueh`), and whether emission completed (false when the
`assert i == 0` of line 196 failed; the fragments written before the
failing assert are still returned, as they were already passed to the
`write` callback). -/
def gen_code (d : InstrSpec) (ueh : Bool) : List Line × Bool × Bool :=
  let pre : List Line :=
    Line.caseHeader d.opcode d.name ::
      (fwdPass 0 d.inputs ++ revPass 0 d.inputs ++ setupPass 0 d.outputs ++
       [Line.bodyCode d.code] ++ decrefPass d.handles_own_decref 0 d.inputs)
  let r := storePass 0 (ueh || d.uses_error_handler) d.outputs
  if r.2.2 then (pre ++ r.1 ++ [Line.caseFooter], r.2.1, true)
  else (pre ++ r.1, r.2.1, false)

/-- The loop of `write_interpreter` over all instructions (generator.py
lines 285-286), threading the `uses_error_handler` flag and stopping if an
instruction's `gen_code` aborts. -/
def gen_all : List InstrSpec → Bool → List Line × Bool × Bool
  | [], ueh => ([], ueh, true)
  | d :: rest, ueh =>
    let r := gen_code d ueh
    if r.2.2 then
      let r2 := gen_all rest r.2.1
      (r.1 ++ r2.1, r2.2.1, r2.2.2)
    else (r.1, r.2.1, false)

/-- `InterpreterGenerator.write_interpreter` (generator.py lines 251-296):
header, per-instruction blocks, switch/loop close, then the `error:` label
returning the spec's error sentinel exactly when the generator's
`uses_error_handler` flag ended up true, and the closing brace.  The second
component records whether generation completed. -/
def write_interpreter (s : InterpreterSpec) : List Line × Bool :=
  let r := gen_all s.instr_descs false
  if r.2.2 then
    (Line.interpHeader s.name :: r.1 ++ [Line.switchEnd] ++
       (if r.2.1 then [Line.errorLabel s.err_return] else []) ++ [Line.interpEnd],
     true)
  else (Line.interpHeader s.name :: r.1, false)

/-- One emitted fragment of the Cython wrapper.  Each constructor matches
one printed block of the `write_wrapper` template (generator.py lines
298-465); blocks not relevant to any claim are collapsed to parameterless
constructors. -/
inductive WLine
  | wrapHeader (name : String)                  -- lines 352-386
  | typeLocalDecls                              -- per-type local declarations
  | initMember (ch : String)                    -- init_class_members per chunk
  | extraMembersInit                            -- extra_members_initialize
  | deallocDef                                  -- lines 396-397
  | deallocMember (ch : String)                 -- dealloc_class_members per chunk
  | callDef                                     -- lines 402-403
  | setupArgs (ch : String)                     -- arg_ch.setup_args()
  | callLocals (ch : String)                    -- declare_call_locals per chunk
  | tryBegin                                    -- line 412 / 433
  | callInterp (name : String) (hasRet : Bool) (adjust : Option String) -- the_call
  | exceptBase                                  -- line 414 / 435
  | cleanupChunk (ch : String)                  -- handle_cleanup per chunk
  | reraise                                     -- line 420 / 441
  | returnRetval                                -- lines 424-426
  | callCDef (argTy : String)                   -- lines 429-431
  | callCInterp (name : String) (hasRet : Bool) -- the_call_c
  | callCReturnOne                              -- line 445
  | metadataTable (name : String)               -- lines 448-461
deriving DecidableEq

/-- `InterpreterGenerator.write_wrapper` (generator.py lines 298-465).
`do_cleanup` is true when some chunk needs cleanup on error (lines
322-326); the argument chunk is the last chunk named `args` (lines
327-329, `none` when absent, in which case the Python code would fail with
a NameError).  When `do_cleanup` holds, both the `__call__` entry point and
(when implemented) `call_c` wrap the interpreter call in
`try/except BaseException` running every needy chunk's cleanup and
re-raising; otherwise the bare call is emitted (lines 411-423, 432-444). -/
def write_wrapper (s : InterpreterSpec) : Option (List WLine) :=
  let do_cleanup := s.chunks.any (fun ch => ch.needs_cleanup_on_error)
  match (s.chunks.reverse).find? (fun ch => ch.name == "args") with
  | none => none
  | some arg_ch =>
    let cleanups : List WLine :=
      (s.chunks.filter (fun ch => ch.needs_cleanup_on_error)).map
        (fun ch => WLine.cleanupChunk ch.name)
    let theCall : List WLine :=
      if do_cleanup then
        [WLine.tryBegin, WLine.callInterp s.name s.return_type.isSome s.adjust_retval,
         WLine.exceptBase] ++ cleanups ++ [WLine.reraise]
      else [WLine.callInterp s.name s.return_type.isSome s.adjust_retval]
    let theCallC : List WLine :=
      if do_cleanup then
        [WLine.tryBegin, WLine.callCInterp s.name s.return_type.isSome,
         WLine.exceptBase] ++ cleanups ++ [WLine.reraise]
      else [WLine.callCInterp s.name s.return_type.isSome]
    some
      ([WLine.wrapHeader s.name, WLine.typeLocalDecls] ++
       s.chunks.map (fun ch => WLine.initMember ch.name) ++
       [WLine.extraMembersInit, WLine.deallocDef] ++
       s.chunks.map (fun ch => WLine.deallocMember ch.name) ++
       [WLine.callDef, WLine.typeLocalDecls, WLine.setupArgs arg_ch.name] ++
       s.chunks.map (fun ch => WLine.callLocals ch.name) ++
       theCall ++
       (if s.return_type.isSome then [] else [WLine.returnRetval]) ++
       (if s.implement_call_c then
          WLine.callCDef arg_ch.storage_type.c_ptr_type :: theCallC ++
            [WLine.callCReturnOne]
        else []) ++
       [WLine.metadataTable s.name])

/-- Offsets cleared by the slice-release loop emitted at generator.py lines
182-187: the loop text is `for (it = 0; it < n; it++) Py_CLEAR(i_k[it]);`,
so starting from 0 it clears every offset below the runtime slice length
`n`.  This definition is the denotation of that loop as written. -/
def clearLoopOffsets (n : Nat) (it : Nat) : List Nat :=
  if h : it < n then it :: clearLoopOffsets n (it + 1) else []
termination_by n - it

/-! Concrete instances, mirroring the interpreters shown in the generator.py
docstrings: the RDF interpreter (plain `double` values, cheap copies) and
the element interpreter (`PyObject*` values, reference-counted), plus an
MPFR-style auto-reference type (not cheap to copy). -/

/-- The `double` storage type of the RDF interpreter. -/
def doubleType : StorageType := ⟨"double", "double*", true, false⟩

/-- The `PyObject*` storage type of the element interpreter. -/
def pyObjectType : StorageType := ⟨"PyObject*", "PyObject**", true, true⟩

/-- The `mpfr_t` auto-reference storage type of the RR interpreter: values
must not be copied by plain assignment. -/
def mpfrType : StorageType := ⟨"mpfr_ptr", "mpfr_ptr*", false, false⟩

/-- The operand stack of the RDF interpreter. -/
def rdfStack : MemoryChunk := ⟨"stack", doubleType, true⟩

/-- The operand stack of the element interpreter (Python reference-counted). -/
def elStack : MemoryChunk := ⟨"stack", pyObjectType, true⟩

/-- The operand stack of the RR interpreter. -/
def rrStack : MemoryChunk := ⟨"stack", mpfrType, true⟩

/-- The argument chunk of the element interpreter. -/
def elArgs : MemoryChunk := ⟨"args", pyObjectType, false⟩

/-- The argument chunk of the RDF interpreter. -/
def rdfArgs : MemoryChunk := ⟨"args", doubleType, false⟩

/-- The RDF `div` instruction (generator.py docstring, lines 80-91):
two stack inputs `(i0, i1)` computing `i0 / i1`. -/
def dDiv : InstrSpec :=
  ⟨"div", 8, [⟨rdfStack, none, none⟩, ⟨rdfStack, none, none⟩],
   [⟨rdfStack, none, none⟩], "o0 = i0 / i1;", false, false⟩

/-- The element-interpreter `neg` instruction (generator.py docstring,
lines 614-630): one reference-counted stack input, one reference-counted
output. -/
def dNeg : InstrSpec :=
  ⟨"neg", 10, [⟨elStack, none, none⟩], [⟨elStack, none, none⟩],
   "o0 = PyNumber_Negative(i0);", false, false⟩

/-- Sanity check of the embedding against the generated `div` code shown in
the generator.py docstring (lines 82-90): pop `i1`, pop `i0`, declare `o0`,
body, push `o0`. -/
theorem gen_code_dDiv_sanity :
    (gen_code dDiv false).1 =
      [Line.caseHeader 8 "div",
       Line.popIn "double" 1 "stack",
       Line.popIn "double" 0 "stack",
       Line.declOut "double" 0,
       Line.bodyCode "o0 = i0 / i1;",
       Line.pushOut "stack" 0,
       Line.caseFooter] := by decide

/-- Sanity check of the embedding against the generated element `neg` code
shown in the generator.py docstring (lines 616-629): pop `i0`, null the
slot, declare `o0`, body, `Py_DECREF(i0)`, validation block, push `o0`. -/
theorem gen_code_dNeg_sanity :
    (gen_code dNeg false).1 =
      [Line.caseHeader 10 "neg",
       Line.popIn "PyObject*" 0 "stack",
       Line.nullTopSlot "stack",
       Line.declOut "PyObject*" 0,
       Line.bodyCode "o0 = PyNumber_Negative(i0);",
       Line.decref 0,
       Line.checkOutBegin 0, Line.xdecrefOut 0, Line.gotoError, Line.checkOutEnd,
       Line.pushOut "stack" 0,
       Line.caseFooter] := by decide

/-! Operand-binding marks (claim C1).  `bindMark` projects an emitted line
to the operand-binding event it represents, if any: an address-operand
declaration, a length-operand declaration, the binding of a non-stack
input, or the pop/slice-pop of a stack input. -/

/-- An operand-binding event for input number `i`. -/
inductive BindMark
  | addrDecl (i : Nat)
  | lenDecl (i : Nat)
  | nonStackBind (i : Nat)
  | stackPop (i : Nat)
deriving DecidableEq

/-- The operand-binding event, if any, represented by an emitted line. -/
def bindMark : Line → Option BindMark
  | .declAI i _ => some (.addrDecl i)
  | .declNI i _ => some (.lenDecl i)
  | .bindCodeIn _ i _ => some (.nonStackBind i)
  | .bindSliceIn _ i _ => some (.nonStackBind i)
  | .bindIndexedIn _ i _ => some (.nonStackBind i)
  | .popIn _ i _ => some (.stackPop i)
  | .bindStackSliceIn _ i _ => some (.stackPop i)
  | _ => none

/-- The operand-binding events of the forward pass, in declaration order:
for each input its address-operand declaration, length-operand declaration
and, when it does not come from a stack, its binding. -/
def fwdMarks (k : Nat) : List Binding → List BindMark
  | [] => []
  | b :: t =>
    ((match b.addr with | some _ => [BindMark.addrDecl k] | none => []) ++
     (match b.len with | some _ => [BindMark.lenDecl k] | none => []) ++
     (if b.chunk.is_stack then [] else [BindMark.nonStackBind k])) ++
    fwdMarks (k + 1) t

/-- The indices of the stack inputs, in declaration order. -/
def stackIdxs (k : Nat) : List Binding → List Nat
  | [] => []
  | b :: t => (if b.chunk.is_stack then [k] else []) ++ stackIdxs (k + 1) t

theorem emitFwdInput_bindMark (k : Nat) (b : Binding) :
    (emitFwdInput k b).filterMap bindMark =
      (match b.addr with | some _ => [BindMark.addrDecl k] | none => []) ++
      (match b.len with | some _ => [BindMark.lenDecl k] | none => []) ++
      (if b.chunk.is_stack then [] else [BindMark.nonStackBind k]) := by
  unfold emitFwdInput
  cases b.addr <;> cases b.len <;> cases hs : b.chunk.is_stack <;>
    by_cases hc : b.chunk.name == "code" <;>
      simp [bindMark, hs, hc, List.filterMap_append]

theorem fwdPass_bindMark (l : List Binding) :
    ∀ k, (fwdPass k l).filterMap bindMark = fwdMarks k l := by
  induction l with
  | nil => intro k; rfl
  | cons b t ih =>
    intro k
    simp only [fwdPass, fwdMarks, List.filterMap_append, ih, emitFwdInput_bindMark]

theorem emitRevInput_bindMark (k : Nat) (b : Binding) :
    (emitRevInput k b).filterMap bindMark =
      (if b.chunk.is_stack then [BindMark.stackPop k] else []) := by
  unfold emitRevInput
  cases hs : b.chunk.is_stack <;> cases hl : b.len <;>
    by_cases hr : b.chunk.is_python_refcounted_stack <;>
      simp [bindMark, hr, List.filterMap_append]

theorem revPass_bindMark (l : List Binding) :
    ∀ k, (revPass k l).filterMap bindMark =
      (stackIdxs k l).reverse.map BindMark.stackPop := by
  induction l with
  | nil => intro k; rfl
  | cons b t ih =>
    intro k
    cases hs : b.chunk.is_stack <;>
      simp [revPass, stackIdxs, List.filterMap_append, ih, emitRevInput_bindMark, hs]

theorem emitOutputSetup_bindMark (k : Nat) (b : Binding) :
    (emitOutputSetup k b).filterMap bindMark = [] := by
  unfold emitOutputSetup
  cases b.addr <;> cases b.len <;> cases hs : b.chunk.is_stack <;>
    cases hcc : b.chunk.storage_type.cheap_copies <;>
      simp [bindMark, hs, hcc, List.filterMap_append]

theorem setupPass_bindMark (l : List Binding) :
    ∀ k, (setupPass k l).filterMap bindMark = [] := by
  induction l with
  | nil => intro k; rfl
  | cons b t ih =>
    intro k
    simp [setupPass, List.filterMap_append, ih, emitOutputSetup_bindMark]

theorem emitDecref_bindMark (hod : Bool) (k : Nat) (b : Binding) :
    (emitDecref hod k b).filterMap bindMark = [] := by
  unfold emitDecref
  cases b.len <;>
    by_cases hr : b.chunk.is_python_refcounted_stack && !hod <;> simp [bindMark, hr]

theorem decrefPass_bindMark (hod : Bool) (l : List Binding) :
    ∀ k, (decrefPass hod k l).filterMap bindMark = [] := by
  induction l with
  | nil => intro k; rfl
  | cons b t ih =>
    intro k
    simp [decrefPass, List.filterMap_append, ih, emitDecref_bindMark]

theorem storePass_bindMark (l : List Binding) :
    ∀ k u, (storePass k u l).1.filterMap bindMark = [] := by
  induction l with
  | nil => intro k u; rfl
  | cons b t ih =>
    intro k u
    unfold storePass
    cases hr : b.chunk.storage_type.python_refcounted <;>
      cases hcc : b.chunk.storage_type.cheap_copies <;>
        cases hs : b.chunk.is_stack <;>
          by_cases hk : k ≠ 0 <;>
            simp [hr, hcc, hs, hk, bindMark, List.filterMap_append, ih]

theorem gen_code_bindMark (d : InstrSpec) (u : Bool) :
    (gen_code d u).1.filterMap bindMark =
      fwdMarks 0 d.inputs ++ (stackIdxs 0 d.inputs).reverse.map BindMark.stackPop := by
  unfold gen_code
  cases h : (storePass 0 (u || d.uses_error_handler) d.outputs).2.2 <;>
    simp [h, List.filterMap_append, bindMark, fwdPass_bindMark, revPass_bindMark,
      setupPass_bindMark, decrefPass_bindMark, storePass_bindMark]

theorem mem_stackIdxs (l : List Binding) :
    ∀ (k j : Nat) (h : j < l.length),
      (l.get ⟨j, h⟩).chunk.is_stack = true → k + j ∈ stackIdxs k l := by
  induction l with
  | nil => intro k j h; exact absurd h (by simp)
  | cons b t ih =>
    intro k j h hs
    cases j with
    | zero => simpa [stackIdxs, List.get] using Or.inl (by simpa using hs)
    | succ j' =>
      have hj' : j' < t.length := Nat.lt_of_succ_lt_succ h
      have := ih (k + 1) j' hj' (by simpa [List.get] using hs)
      have harith : k + (j' + 1) = (k + 1) + j' := by omega
      cases hsb : b.chunk.is_stack <;>
        simp [stackIdxs, hsb, harith, this]

theorem pair_stackIdxs (l : List Binding) :
    ∀ (k p q : Nat) (hpq : p < q) (hq : q < l.length),
      (l.get ⟨p, Nat.lt_trans hpq hq⟩).chunk.is_stack = true →
      (l.get ⟨q, hq⟩).chunk.is_stack = true →
      [k + p, k + q].Sublist (stackIdxs k l) := by
  induction l with
  | nil => intro k p q hpq hq; exact absurd hq (by simp)
  | cons b t ih =>
    intro k p q hpq hq hp hqs
    cases p with
    | zero =>
      obtain ⟨q', rfl⟩ : ∃ q', q = q' + 1 := ⟨q - 1, by omega⟩
      have hq' : q' < t.length := Nat.lt_of_succ_lt_succ hq
      have hb : b.chunk.is_stack = true := by simpa [List.get] using hp
      have hmem : (k + 1) + q' ∈ stackIdxs (k + 1) t :=
        mem_stackIdxs t (k + 1) q' hq' (by simpa [List.get] using hqs)
      have harith : k + (q' + 1) = (k + 1) + q' := by omega
      have htail : [k + (q' + 1)].Sublist (stackIdxs (k + 1) t) := by
        rw [harith]; exact List.singleton_sublist.mpr hmem
      simpa [stackIdxs, hb] using List.Sublist.cons₂ k htail
    | succ p' =>
      obtain ⟨q', rfl⟩ : ∃ q', q = q' + 1 := ⟨q - 1, by omega⟩
      have hq' : q' < t.length := Nat.lt_of_succ_lt_succ hq
      have hpq' : p' < q' := Nat.lt_of_succ_lt_succ hpq
      have htail : [(k + 1) + p', (k + 1) + q'].Sublist (stackIdxs (k + 1) t) :=
        ih (k + 1) p' q' hpq' hq' (by simpa [List.get] using hp)
          (by simpa [List.get] using hqs)
      have harith1 : k + (p' + 1) = (k + 1) + p' := by omega
      have harith2 : k + (q' + 1) = (k + 1) + q' := by omega
      rw [harith1, harith2]
      cases hsb : b.chunk.is_stack
      · simpa [stackIdxs, hsb] using htail
      · simpa [stackIdxs, hsb] using htail.cons k

/-- C1: for every `InstrSpec`, the block emitted by `gen_code` binds the
operands in two passes: restricted to operand-binding events, the output is
exactly the forward pass over the inputs in declaration order (every
address-operand declaration, every length-operand declaration, every
non-stack input binding) followed by the pops of the stack inputs in
reverse declaration order; consequently, for stack inputs declared at
positions `p < q` (such as the two operands of a subtraction or division),
the pop of input `q` is emitted before the pop of input `p`. -/
theorem c1_two_pass_operand_binding (d : InstrSpec) (u : Bool) (p q : Nat)
    (hpq : p < q) (hq : q < d.inputs.length)
    (hp : (d.inputs.get ⟨p, Nat.lt_trans hpq hq⟩).chunk.is_stack = true)
    (hqs : (d.inputs.get ⟨q, hq⟩).chunk.is_stack = true) :
    (gen_code d u).1.filterMap bindMark
      = fwdMarks 0 d.inputs ++ (stackIdxs 0 d.inputs).reverse.map BindMark.stackPop
    ∧ [BindMark.stackPop q, BindMark.stackPop p].Sublist
        ((gen_code d u).1.filterMap bindMark) := by
  refine ⟨gen_code_bindMark d u, ?_⟩
  have hpair : [p, q].Sublist (stackIdxs 0 d.inputs) := by
    simpa using pair_stackIdxs d.inputs 0 p q hpq hq hp hqs
  have hrev : [q, p].Sublist (stackIdxs 0 d.inputs).reverse := by
    simpa using hpair.reverse
  have hmap : [BindMark.stackPop q, BindMark.stackPop p].Sublist
      ((stackIdxs 0 d.inputs).reverse.map BindMark.stackPop) := by
    simpa using hrev.map BindMark.stackPop
  rw [gen_code_bindMark d u]
  exact hmap.trans (List.sublist_append_right _ _)

/-- Witness for C1 at the RDF `div` instruction: its two stack inputs are
popped in reverse order (`i1` before `i0`). -/
theorem c1_witness :
    ((gen_code dDiv false).1.filterMap bindMark
      = fwdMarks 0 dDiv.inputs ++ (stackIdxs 0 dDiv.inputs).reverse.map BindMark.stackPop)
    ∧ [BindMark.stackPop 1, BindMark.stackPop 0].Sublist
        ((gen_code dDiv false).1.filterMap bindMark) :=
  c1_two_pass_operand_binding dDiv false 0 1 (by decide) (by decide) (by decide)
    (by decide)

/-! Release marks (claims C2, C3, C7).  `relMark` projects an emitted line
to the body/release event it represents: the instruction body, the
`Py_DECREF` of a plain consumed input, or the `Py_CLEAR` loop over a
variable-length consumed slice. -/

/-- A body or release event. -/
inductive RelMark
  | body
  | rel (i : Nat)
  | clearSlice (i : Nat)
deriving DecidableEq

/-- The body/release event, if any, represented by an emitted line. -/
def relMark : Line → Option RelMark
  | .bodyCode _ => some .body
  | .decref i => some (.rel i)
  | .clearLoop _ i => some (.clearSlice i)
  | _ => none

/-- The input index a release event refers to. -/
def relIdx : RelMark → Option Nat
  | .body => none
  | .rel i => some i
  | .clearSlice i => some i

/-- The release events emitted by the release pass, in declaration order. -/
def relExp (hod : Bool) (k : Nat) : List Binding → List RelMark
  | [] => []
  | b :: t =>
    (if b.chunk.is_python_refcounted_stack && !hod then
      [match b.len with | none => RelMark.rel k | some _ => RelMark.clearSlice k]
     else []) ++ relExp hod (k + 1) t

theorem emitFwdInput_relMark (k : Nat) (b : Binding) :
    (emitFwdInput k b).filterMap relMark = [] := by
  unfold emitFwdInput
  cases b.addr <;> cases b.len <;> cases hs : b.chunk.is_stack <;>
    by_cases hc : b.chunk.name == "code" <;>
      simp [relMark, hs, hc, List.filterMap_append]

theorem fwdPass_relMark (l : List Binding) :
    ∀ k, (fwdPass k l).filterMap relMark = [] := by
  induction l with
  | nil => intro k; rfl
  | cons b t ih =>
    intro k; simp [fwdPass, List.filterMap_append, ih, emitFwdInput_relMark]

theorem emitRevInput_relMark (k : Nat) (b : Binding) :
    (emitRevInput k b).filterMap relMark = [] := by
  unfold emitRevInput
  cases hs : b.chunk.is_stack <;> cases hl : b.len <;>
    by_cases hr : b.chunk.is_python_refcounted_stack <;>
      simp [relMark, hr, List.filterMap_append]

theorem revPass_relMark (l : List Binding) :
    ∀ k, (revPass k l).filterMap relMark = [] := by
  induction l with
  | nil => intro k; rfl
  | cons b t ih =>
    intro k; simp [revPass, List.filterMap_append, ih, emitRevInput_relMark]

theorem emitOutputSetup_relMark (k : Nat) (b : Binding) :
    (emitOutputSetup k b).filterMap relMark = [] := by
  unfold emitOutputSetup
  cases b.addr <;> cases b.len <;> cases hs : b.chunk.is_stack <;>
    cases hcc : b.chunk.storage_type.cheap_copies <;>
      simp [relMark, hs, hcc, List.filterMap_append]

theorem setupPass_relMark (l : List Binding) :
    ∀ k, (setupPass k l).filterMap relMark = [] := by
  induction l with
  | nil => intro k; rfl
  | cons b t ih =>
    intro k; simp [setupPass, List.filterMap_append, ih, emitOutputSetup_relMark]

theorem decrefPass_relMark (hod : Bool) (l : List Binding) :
    ∀ k, (decrefPass hod k l).filterMap relMark = relExp hod k l := by
  induction l with
  | nil => intro k; rfl
  | cons b t ih =>
    intro k
    simp only [decrefPass, relExp, List.filterMap_append, ih]
    congr 1
    unfold emitDecref
    by_cases hr : b.chunk.is_python_refcounted_stack && !hod <;>
      cases b.len <;> simp [relMark, hr]

theorem storePass_relMark (l : List Binding) :
    ∀ k u, (storePass k u l).1.filterMap relMark = [] := by
  induction l with
  | nil => intro k u; rfl
  | cons b t ih =>
    intro k u
    unfold storePass
    cases hr : b.chunk.storage_type.python_refcounted <;>
      cases hcc : b.chunk.storage_type.cheap_copies <;>
        cases hs : b.chunk.is_stack <;>
          by_cases hk : k ≠ 0 <;>
            simp [hr, hcc, hs, hk, relMark, List.filterMap_append, ih]

/-- In the block `gen_code` emits, restricted to body/release events, the
body comes first and is followed by exactly the releases of the release
pass, in declaration order. -/
theorem gen_code_relMark (d : InstrSpec) (u : Bool) :
    (gen_code d u).1.filterMap relMark =
      RelMark.body :: relExp d.handles_own_decref 0 d.inputs := by
  unfold gen_code
  cases h : (storePass 0 (u || d.uses_error_handler) d.outputs).2.2 <;>
    simp [h, List.filterMap_append, relMark, fwdPass_relMark, revPass_relMark,
      setupPass_relMark, decrefPass_relMark, storePass_relMark]

theorem relExp_idx_ge (hod : Bool) (l : List Binding) :
    ∀ k m, m ∈ relExp hod k l → ∃ i, relIdx m = some i ∧ k ≤ i := by
  induction l with
  | nil => intro k m hm; exact absurd hm (by simp [relExp])
  | cons b t ih =>
    intro k m hm
    rw [relExp, List.mem_append] at hm
    rcases hm with hm | hm
    · by_cases hr : b.chunk.is_python_refcounted_stack && !hod
      · simp only [hr, if_true] at hm
        cases hl : b.len <;> rw [hl] at hm <;> simp at hm <;>
          exact ⟨k, by simp [hm, relIdx]⟩
      · simp [hr] at hm
    · obtain ⟨i, hi, hki⟩ := ih (k + 1) m hm
      exact ⟨i, hi, by omega⟩

theorem relExp_filter (hod : Bool) (l : List Binding) :
    ∀ (k j : Nat) (h : j < l.length),
      (relExp hod k l).filter (fun m => relIdx m == some (k + j)) =
        (if (l.get ⟨j, h⟩).chunk.is_python_refcounted_stack && !hod then
          [match (l.get ⟨j, h⟩).len with
           | none => RelMark.rel (k + j) | some _ => RelMark.clearSlice (k + j)]
         else []) := by
  induction l with
  | nil => intro k j h; exact absurd h (by simp)
  | cons b t ih =>
    intro k j h
    have htailnil : ∀ (i : Nat), i < k + 1 →
        (relExp hod (k + 1) t).filter (fun m => relIdx m == some i) = [] := by
      intro i hik
      rw [List.filter_eq_nil_iff]
      intro m hm
      obtain ⟨i', hi', hki'⟩ := relExp_idx_ge hod t (k + 1) m hm
      simp [hi']
      omega
    cases j with
    | zero =>
      simp only [Nat.add_zero, List.get]
      rw [relExp, List.filter_append, htailnil k (by omega), List.append_nil]
      by_cases hr : b.chunk.is_python_refcounted_stack && !hod
      · simp only [hr, if_true]
        cases hl : b.len <;> simp [relIdx]
      · simp [hr]
    | succ j' =>
      have hj' : j' < t.length := Nat.lt_of_succ_lt_succ h
      have harith : k + (j' + 1) = (k + 1) + j' := by omega
      rw [relExp, List.filter_append, harith, ih (k + 1) j' hj']
      have hhead : ∀ m ∈ (if b.chunk.is_python_refcounted_stack && !hod then
          [match b.len with
           | none => RelMark.rel k | some _ => RelMark.clearSlice k]
         else []), ¬ (relIdx m == some ((k + 1) + j')) = true := by
        intro m hm
        by_cases hr : b.chunk.is_python_refcounted_stack && !hod
        · simp only [hr, if_true] at hm
          cases hl : b.len <;> rw [hl] at hm <;> simp at hm <;>
            simp [hm, relIdx] <;> omega
        · simp [hr] at hm
      rw [List.filter_eq_nil_iff.mpr hhead, List.nil_append]
      simp [List.get]

/-- The element-interpreter style variadic call instruction: one consumed
stack input carrying a length operand read from the instruction stream. -/
def dCallN : InstrSpec :=
  ⟨"py_call", 3, [⟨elStack, none, some (Addr.stream "code")⟩],
   [⟨elStack, none, none⟩], "o0 = do_call(i0, n_i0);", false, false⟩

/-- A hypothetical element-interpreter instruction that manages its own
reference counting (`handles_own_decref` set): it pops one reference-counted
stack input and keeps or releases it itself. -/
def dKeep : InstrSpec :=
  ⟨"keep", 12, [⟨elStack, none, none⟩], [], "maybe_release(i0);", false, true⟩

/-- C2: for every instruction consuming an input from a Python
reference-counted stack chunk without `handles_own_decref`, the emitted
block contains, among body/release events, the body first, and afterwards
exactly one release of that input: a `Py_DECREF` for a plain input, the
`Py_CLEAR` slice loop for a length-bearing one. -/
theorem c2_release_exactly_once_after_body (d : InstrSpec) (u : Bool) (i : Nat)
    (hi : i < d.inputs.length)
    (hrs : (d.inputs.get ⟨i, hi⟩).chunk.is_python_refcounted_stack = true)
    (hod : d.handles_own_decref = false) :
    ∃ rest, (gen_code d u).1.filterMap relMark = RelMark.body :: rest ∧
      rest.filter (fun m => relIdx m == some i) =
        [match (d.inputs.get ⟨i, hi⟩).len with
         | none => RelMark.rel i | some _ => RelMark.clearSlice i] := by
  refine ⟨relExp d.handles_own_decref 0 d.inputs, gen_code_relMark d u, ?_⟩
  have h := relExp_filter d.handles_own_decref d.inputs 0 i hi
  rw [Nat.zero_add] at h
  rw [h, hod, hrs]
  simp

/-- Witness for C2: the element-interpreter `neg` instruction releases its
consumed stack input exactly once, after the body. -/
theorem c2_witness :
    ∃ rest, (gen_code dNeg false).1.filterMap relMark = RelMark.body :: rest ∧
      rest.filter (fun m => relIdx m == some 0) =
        [match (dNeg.inputs.get ⟨0, by decide⟩).len with
         | none => RelMark.rel 0 | some _ => RelMark.clearSlice 0] :=
  c2_release_exactly_once_after_body dNeg false 0 (by decide) (by decide) (by decide)

theorem clearLoopOffsets_covers :
    ∀ (n it j : Nat), it ≤ j → j < n → j ∈ clearLoopOffsets n it := by
  intro n
  have H : ∀ (fuel it j : Nat), n - it ≤ fuel → it ≤ j → j < n →
      j ∈ clearLoopOffsets n it := by
    intro fuel
    induction fuel with
    | zero => intro it j hf h1 h2; omega
    | succ f ih =>
      intro it j hf h1 h2
      have hit : it < n := Nat.lt_of_le_of_lt h1 h2
      rw [clearLoopOffsets]
      simp only [hit, dif_pos, List.mem_cons]
      rcases Nat.eq_or_lt_of_le h1 with rfl | hlt
      · exact Or.inl rfl
      · exact Or.inr (ih (it + 1) j (by omega) hlt h2)
  intro it j h1 h2
  exact H (n - it) it j (Nat.le_refl _) h1 h2

/-- C7: a consumed input with a length operand on a Python reference-counted
stack chunk, in an instruction without `handles_own_decref`, gets exactly
one release event, the `Py_CLEAR` loop over the slice; that loop, as
emitted (`for (it = 0; it < n; it++) Py_CLEAR(i_k[it]);`), clears every one
of the `n` slice offsets, not only the endpoints. -/
theorem c7_clear_every_slice_element (d : InstrSpec) (u : Bool) (i : Nat)
    (hi : i < d.inputs.length)
    (hrs : (d.inputs.get ⟨i, hi⟩).chunk.is_python_refcounted_stack = true)
    (hlen : (d.inputs.get ⟨i, hi⟩).len.isSome = true)
    (hod : d.handles_own_decref = false) :
    (∃ rest, (gen_code d u).1.filterMap relMark = RelMark.body :: rest ∧
        rest.filter (fun m => relIdx m == some i) = [RelMark.clearSlice i])
    ∧ ∀ n j, j < n → j ∈ clearLoopOffsets n 0 := by
  constructor
  · refine ⟨relExp d.handles_own_decref 0 d.inputs, gen_code_relMark d u, ?_⟩
    have h := relExp_filter d.handles_own_decref d.inputs 0 i hi
    rw [Nat.zero_add] at h
    obtain ⟨a, ha⟩ := Option.isSome_iff_exists.mp hlen
    rw [h, hod, hrs, ha]
    simp
  · intro n j hj
    exact clearLoopOffsets_covers n 0 j (Nat.zero_le j) hj

/-- Witness for C7 at the variadic call instruction `dCallN`. -/
theorem c7_witness :
    (∃ rest, (gen_code dCallN false).1.filterMap relMark = RelMark.body :: rest ∧
        rest.filter (fun m => relIdx m == some 0) = [RelMark.clearSlice 0])
    ∧ ∀ n j, j < n → j ∈ clearLoopOffsets n 0 :=
  c7_clear_every_slice_element dCallN false 0 (by decide) (by decide) (by decide)
    (by decide)

/-- C3 fails on the code: for the element-interpreter `neg` instruction the
release of the consumed input is emitted strictly after the body, not
before it (the body/release events are the body followed by the release,
and no release precedes the body). -/
theorem c3_counterexample :
    (gen_code dNeg false).1.filterMap relMark = [RelMark.body, RelMark.rel 0] ∧
    ¬ [RelMark.rel 0, RelMark.body].Sublist
        ((gen_code dNeg false).1.filterMap relMark) := by
  decide

theorem gen_code_split_rev (d : InstrSpec) (u : Bool) :
    ∃ P T, (gen_code d u).1 = P ++ (revPass 0 d.inputs ++ T) := by
  unfold gen_code
  cases h : (storePass 0 (u || d.uses_error_handler) d.outputs).2.2
  · refine ⟨Line.caseHeader d.opcode d.name :: fwdPass 0 d.inputs,
      setupPass 0 d.outputs ++ [Line.bodyCode d.code] ++
        decrefPass d.handles_own_decref 0 d.inputs ++
        (storePass 0 (u || d.uses_error_handler) d.outputs).1, ?_⟩
    simp [h, List.append_assoc]
  · refine ⟨Line.caseHeader d.opcode d.name :: fwdPass 0 d.inputs,
      setupPass 0 d.outputs ++ [Line.bodyCode d.code] ++
        decrefPass d.handles_own_decref 0 d.inputs ++
        ((storePass 0 (u || d.uses_error_handler) d.outputs).1 ++
          [Line.caseFooter]), ?_⟩
    simp [h, List.append_assoc]

theorem revPass_decomp (l : List Binding) :
    ∀ (k j : Nat) (h : j < l.length),
      ∃ A B, revPass k l = A ++ (emitRevInput (k + j) (l.get ⟨j, h⟩) ++ B) := by
  induction l with
  | nil => intro k j h; exact absurd h (by simp)
  | cons b t ih =>
    intro k j h
    cases j with
    | zero =>
      refine ⟨revPass (k + 1) t, [], ?_⟩
      simp [revPass, List.get]
    | succ j' =>
      have hj' : j' < t.length := Nat.lt_of_succ_lt_succ h
      obtain ⟨A, B, hAB⟩ := ih (k + 1) j' hj'
      refine ⟨A, B ++ emitRevInput k b, ?_⟩
      have harith : k + (j' + 1) = (k + 1) + j' := by omega
      simp [revPass, hAB, harith, List.append_assoc, List.get]

/-- In the block emitted for any instruction, the pop of an input from a
Python reference-counted stack chunk is immediately followed by the store
of NULL into the vacated slot — with no condition on `handles_own_decref`
(generator.py lines 143-145). -/
theorem gen_code_pop_null (d : InstrSpec) (u : Bool) (i : Nat)
    (hi : i < d.inputs.length)
    (hlen : (d.inputs.get ⟨i, hi⟩).len = none)
    (hrs : (d.inputs.get ⟨i, hi⟩).chunk.is_python_refcounted_stack = true) :
    ∃ l1 l2, (gen_code d u).1 =
      l1 ++ (Line.popIn (d.inputs.get ⟨i, hi⟩).chunk.storage_type.c_local_type i
               (d.inputs.get ⟨i, hi⟩).chunk.name ::
             Line.nullTopSlot (d.inputs.get ⟨i, hi⟩).chunk.name :: l2) := by
  obtain ⟨P, T, hPT⟩ := gen_code_split_rev d u
  obtain ⟨A, B, hAB⟩ := revPass_decomp d.inputs 0 i hi
  have hstack : (d.inputs.get ⟨i, hi⟩).chunk.is_stack = true := by
    have h := hrs
    unfold MemoryChunk.is_python_refcounted_stack at h
    exact ((Bool.and_eq_true _ _).mp h).1
  have hemit : emitRevInput (0 + i) (d.inputs.get ⟨i, hi⟩) =
      [Line.popIn (d.inputs.get ⟨i, hi⟩).chunk.storage_type.c_local_type i
         (d.inputs.get ⟨i, hi⟩).chunk.name,
       Line.nullTopSlot (d.inputs.get ⟨i, hi⟩).chunk.name] := by
    simp only [List.get_eq_getElem] at hstack hlen hrs
    simp [emitRevInput, hstack, hlen, hrs]
  refine ⟨P ++ A, B ++ T, ?_⟩
  rw [hPT, hAB, hemit]
  simp [List.append_assoc]

/-- C3 amended: the consumed reference-counted stack input is *not*
released before the body; what happens immediately after the pop is only
the nulling of the vacated slot, and the reference-count decrement is
emitted after the body code (and is the input's only release event). -/
theorem c3_amended_null_then_release_after_body (d : InstrSpec) (u : Bool)
    (i : Nat) (hi : i < d.inputs.length)
    (hlen : (d.inputs.get ⟨i, hi⟩).len = none)
    (hrs : (d.inputs.get ⟨i, hi⟩).chunk.is_python_refcounted_stack = true)
    (hod : d.handles_own_decref = false) :
    (∃ l1 l2, (gen_code d u).1 =
      l1 ++ (Line.popIn (d.inputs.get ⟨i, hi⟩).chunk.storage_type.c_local_type i
               (d.inputs.get ⟨i, hi⟩).chunk.name ::
             Line.nullTopSlot (d.inputs.get ⟨i, hi⟩).chunk.name :: l2))
    ∧ (∃ rest, (gen_code d u).1.filterMap relMark = RelMark.body :: rest ∧
        rest.filter (fun m => relIdx m == some i) = [RelMark.rel i]) := by
  refine ⟨gen_code_pop_null d u i hi hlen hrs, ?_⟩
  refine ⟨relExp d.handles_own_decref 0 d.inputs, gen_code_relMark d u, ?_⟩
  have h := relExp_filter d.handles_own_decref d.inputs 0 i hi
  rw [Nat.zero_add] at h
  rw [h, hod, hrs, hlen]
  simp

/-- Witness for the amended C3 at the element-interpreter `neg`
instruction. -/
theorem c3_amended_witness :
    (∃ l1 l2, (gen_code dNeg false).1 =
      l1 ++ (Line.popIn (dNeg.inputs.get ⟨0, by decide⟩).chunk.storage_type.c_local_type 0
               (dNeg.inputs.get ⟨0, by decide⟩).chunk.name ::
             Line.nullTopSlot (dNeg.inputs.get ⟨0, by decide⟩).chunk.name :: l2))
    ∧ (∃ rest, (gen_code dNeg false).1.filterMap relMark = RelMark.body :: rest ∧
        rest.filter (fun m => relIdx m == some 0) = [RelMark.rel 0]) :=
  c3_amended_null_then_release_after_body dNeg false 0 (by decide) (by decide)
    (by decide) (by decide)

/-- C9: a popped input from a Python reference-counted stack chunk has NULL
stored into the vacated slot immediately after the pop, unconditionally —
in particular also when the instruction sets `handles_own_decref` — so
slots above the live stack pointer never retain a stale object pointer. -/
theorem c9_null_slot_unconditional (d : InstrSpec) (u : Bool) (i : Nat)
    (hi : i < d.inputs.length)
    (hlen : (d.inputs.get ⟨i, hi⟩).len = none)
    (hrs : (d.inputs.get ⟨i, hi⟩).chunk.is_python_refcounted_stack = true) :
    ∃ l1 l2, (gen_code d u).1 =
      l1 ++ (Line.popIn (d.inputs.get ⟨i, hi⟩).chunk.storage_type.c_local_type i
               (d.inputs.get ⟨i, hi⟩).chunk.name ::
             Line.nullTopSlot (d.inputs.get ⟨i, hi⟩).chunk.name :: l2) :=
  gen_code_pop_null d u i hi hlen hrs

/-- Witness for C9 at `dKeep`, an instruction with `handles_own_decref`
set: the NULL store still immediately follows the pop. -/
theorem c9_witness :
    ∃ l1 l2, (gen_code dKeep false).1 =
      l1 ++ (Line.popIn (dKeep.inputs.get ⟨0, by decide⟩).chunk.storage_type.c_local_type 0
               (dKeep.inputs.get ⟨0, by decide⟩).chunk.name ::
             Line.nullTopSlot (dKeep.inputs.get ⟨0, by decide⟩).chunk.name :: l2) :=
  c9_null_slot_unconditional dKeep false 0 (by decide) (by decide) (by decide)

/-! Output-handling marks (claim C5).  `outMark` projects an emitted line to
the output-handling event it represents: pre-binding of an output local to
its destination storage, declaration of a fresh local, slice binding, the
body, the validation check of a reference-counted output, or the store of a
computed value to its destination. -/

/-- An output-handling event. -/
inductive OutMark
  | preBind (i : Nat)
  | fresh (i : Nat)
  | sliceBind (i : Nat)
  | body
  | check (i : Nat)
  | store (i : Nat)
deriving DecidableEq

/-- The output-handling event, if any, represented by an emitted line. -/
def outMark : Line → Option OutMark
  | .popBindOut _ i _ => some (.preBind i)
  | .bindIndexedOut _ i _ => some (.preBind i)
  | .bindStackSliceOut _ i _ => some (.sliceBind i)
  | .bindSliceOut _ i _ => some (.sliceBind i)
  | .declOut _ i => some (.fresh i)
  | .bodyCode _ => some .body
  | .checkOutBegin i => some (.check i)
  | .pushOut _ i => some (.store i)
  | .storeIndexedOut _ i => some (.store i)
  | _ => none

/-- The output index an output-handling event refers to. -/
def outIdx : OutMark → Option Nat
  | .body => none
  | .preBind i => some i
  | .fresh i => some i
  | .sliceBind i => some i
  | .check i => some i
  | .store i => some i

/-- The output-handling events of the output-setup pass (before the body),
in declaration order. -/
def setupExp (k : Nat) : List Binding → List OutMark
  | [] => []
  | b :: t =>
    (match b.len with
     | some _ => [OutMark.sliceBind k]
     | none =>
       if b.chunk.storage_type.cheap_copies then [OutMark.fresh k]
       else [OutMark.preBind k]) ++ setupExp (k + 1) t

/-- The output-handling events of the check-and-store pass (after the
body), in declaration order. -/
def storeExp (k : Nat) : List Binding → List OutMark
  | [] => []
  | b :: t =>
    (if b.chunk.storage_type.python_refcounted then [OutMark.check k] else []) ++
    (if b.chunk.storage_type.cheap_copies then [OutMark.store k] else []) ++
    storeExp (k + 1) t

theorem emitFwdInput_outMark (k : Nat) (b : Binding) :
    (emitFwdInput k b).filterMap outMark = [] := by
  unfold emitFwdInput
  cases b.addr <;> cases b.len <;> cases hs : b.chunk.is_stack <;>
    by_cases hc : b.chunk.name == "code" <;>
      simp [outMark, hs, hc, List.filterMap_append]

theorem fwdPass_outMark (l : List Binding) :
    ∀ k, (fwdPass k l).filterMap outMark = [] := by
  induction l with
  | nil => intro k; rfl
  | cons b t ih =>
    intro k; simp [fwdPass, List.filterMap_append, ih, emitFwdInput_outMark]

theorem emitRevInput_outMark (k : Nat) (b : Binding) :
    (emitRevInput k b).filterMap outMark = [] := by
  unfold emitRevInput
  cases hs : b.chunk.is_stack <;> cases hl : b.len <;>
    by_cases hr : b.chunk.is_python_refcounted_stack <;>
      simp [outMark, hr, List.filterMap_append]

theorem revPass_outMark (l : List Binding) :
    ∀ k, (revPass k l).filterMap outMark = [] := by
  induction l with
  | nil => intro k; rfl
  | cons b t ih =>
    intro k; simp [revPass, List.filterMap_append, ih, emitRevInput_outMark]

theorem decrefPass_outMark (hod : Bool) (l : List Binding) :
    ∀ k, (decrefPass hod k l).filterMap outMark = [] := by
  induction l with
  | nil => intro k; rfl
  | cons b t ih =>
    intro k
    simp only [decrefPass, List.filterMap_append, ih, List.append_nil]
    unfold emitDecref
    by_cases hr : b.chunk.is_python_refcounted_stack && !hod <;>
      cases b.len <;> simp [outMark, hr]

theorem setupPass_outMark (l : List Binding) :
    ∀ k, (setupPass k l).filterMap outMark = setupExp k l := by
  induction l with
  | nil => intro k; rfl
  | cons b t ih =>
    intro k
    simp only [setupPass, setupExp, List.filterMap_append, ih]
    congr 1
    unfold emitOutputSetup
    cases b.addr <;> cases b.len <;> cases hs : b.chunk.is_stack <;>
      cases hcc : b.chunk.storage_type.cheap_copies <;>
        simp [outMark, hs, hcc, List.filterMap_append]

theorem storePass_ok_outMark (l : List Binding) :
    ∀ k u, (storePass k u l).2.2 = true →
      (storePass k u l).1.filterMap outMark = storeExp k l := by
  induction l with
  | nil => intro k u _; rfl
  | cons b t ih =>
    intro k u hok
    by_cases hr : b.chunk.storage_type.python_refcounted = true
    · by_cases hk : k = 0
      · subst hk
        have hok' : (storePass 1 true t).2.2 = true := by
          unfold storePass at hok
          simpa [hr] using hok
        unfold storePass
        cases hcc : b.chunk.storage_type.cheap_copies <;>
          cases hs : b.chunk.is_stack <;>
            simp [hr, hcc, hs, storeExp, outMark, List.filterMap_append,
              ih 1 true hok']
      · exfalso
        unfold storePass at hok
        simp [hr, hk] at hok
    · have hok' : (storePass (k + 1) u t).2.2 = true := by
        unfold storePass at hok
        simpa [hr] using hok
      unfold storePass
      cases hcc : b.chunk.storage_type.cheap_copies <;>
        cases hs : b.chunk.is_stack <;>
          simp [hr, hcc, hs, storeExp, outMark, List.filterMap_append,
            ih (k + 1) u hok']

theorem gen_code_ok_iff (d : InstrSpec) (u : Bool) :
    (gen_code d u).2.2 =
      (storePass 0 (u || d.uses_error_handler) d.outputs).2.2 := by
  unfold gen_code
  cases h : (storePass 0 (u || d.uses_error_handler) d.outputs).2.2 <;> simp [h]

/-- When generation of an instruction completes, its output-handling events
are: the setup events in declaration order, then the body, then the
check-and-store events in declaration order. -/
theorem gen_code_outMark (d : InstrSpec) (u : Bool)
    (hok : (gen_code d u).2.2 = true) :
    (gen_code d u).1.filterMap outMark =
      setupExp 0 d.outputs ++ OutMark.body :: storeExp 0 d.outputs := by
  have hok' : (storePass 0 (u || d.uses_error_handler) d.outputs).2.2 = true := by
    rw [← gen_code_ok_iff]; exact hok
  unfold gen_code
  simp [hok', List.filterMap_append, outMark, fwdPass_outMark, revPass_outMark,
    setupPass_outMark, decrefPass_outMark, storePass_ok_outMark _ _ _ hok']

theorem setupExp_idx_ge (l : List Binding) :
    ∀ k m, m ∈ setupExp k l → ∃ i, outIdx m = some i ∧ k ≤ i := by
  induction l with
  | nil => intro k m hm; exact absurd hm (by simp [setupExp])
  | cons b t ih =>
    intro k m hm
    rw [setupExp, List.mem_append] at hm
    rcases hm with hm | hm
    · cases hl : b.len <;> rw [hl] at hm
      · by_cases hcc : b.chunk.storage_type.cheap_copies = true <;>
          simp [hcc] at hm <;> exact ⟨k, by simp [hm, outIdx]⟩
      · simp at hm; exact ⟨k, by simp [hm, outIdx]⟩
    · obtain ⟨i, hi, hki⟩ := ih (k + 1) m hm
      exact ⟨i, hi, by omega⟩

theorem storeExp_idx_ge (l : List Binding) :
    ∀ k m, m ∈ storeExp k l → ∃ i, outIdx m = some i ∧ k ≤ i := by
  induction l with
  | nil => intro k m hm; exact absurd hm (by simp [storeExp])
  | cons b t ih =>
    intro k m hm
    rw [storeExp, List.mem_append, List.mem_append] at hm
    rcases hm with (hm | hm) | hm
    · by_cases hr : b.chunk.storage_type.python_refcounted = true <;>
        simp [hr] at hm <;> exact ⟨k, by simp [hm, outIdx]⟩
    · by_cases hcc : b.chunk.storage_type.cheap_copies = true <;>
        simp [hcc] at hm <;> exact ⟨k, by simp [hm, outIdx]⟩
    · obtain ⟨i, hi, hki⟩ := ih (k + 1) m hm
      exact ⟨i, hi, by omega⟩

theorem setupExp_filter (l : List Binding) :
    ∀ (k j : Nat) (h : j < l.length),
      (setupExp k l).filter (fun m => outIdx m == some (k + j)) =
        (match (l.get ⟨j, h⟩).len with
         | some _ => [OutMark.sliceBind (k + j)]
         | none =>
           if (l.get ⟨j, h⟩).chunk.storage_type.cheap_copies then
             [OutMark.fresh (k + j)]
           else [OutMark.preBind (k + j)]) := by
  induction l with
  | nil => intro k j h; exact absurd h (by simp)
  | cons b t ih =>
    intro k j h
    have htailnil : ∀ (i : Nat), i < k + 1 →
        (setupExp (k + 1) t).filter (fun m => outIdx m == some i) = [] := by
      intro i hik
      rw [List.filter_eq_nil_iff]
      intro m hm
      obtain ⟨i', hi', hki'⟩ := setupExp_idx_ge t (k + 1) m hm
      simp [hi']
      omega
    cases j with
    | zero =>
      simp only [Nat.add_zero, List.get]
      rw [setupExp, List.filter_append, htailnil k (by omega), List.append_nil]
      cases hl : b.len
      · by_cases hcc : b.chunk.storage_type.cheap_copies = true <;>
          simp [hcc, outIdx]
      · simp [outIdx]
    | succ j' =>
      have hj' : j' < t.length := Nat.lt_of_succ_lt_succ h
      have harith : k + (j' + 1) = (k + 1) + j' := by omega
      rw [setupExp, List.filter_append, harith, ih (k + 1) j' hj']
      have hhead : ∀ m ∈ (match b.len with
          | some _ => [OutMark.sliceBind k]
          | none =>
            if b.chunk.storage_type.cheap_copies then [OutMark.fresh k]
            else [OutMark.preBind k]),
          ¬ (outIdx m == some ((k + 1) + j')) = true := by
        intro m hm
        cases hl : b.len <;> rw [hl] at hm
        · by_cases hcc : b.chunk.storage_type.cheap_copies = true <;>
            simp [hcc] at hm <;> simp [hm, outIdx] <;> omega
        · simp at hm; simp [hm, outIdx]; omega
      rw [List.filter_eq_nil_iff.mpr hhead, List.nil_append]
      simp [List.get]

theorem storeExp_filter (l : List Binding) :
    ∀ (k j : Nat) (h : j < l.length),
      (storeExp k l).filter (fun m => outIdx m == some (k + j)) =
        (if (l.get ⟨j, h⟩).chunk.storage_type.python_refcounted then
          [OutMark.check (k + j)] else []) ++
        (if (l.get ⟨j, h⟩).chunk.storage_type.cheap_copies then
          [OutMark.store (k + j)] else []) := by
  induction l with
  | nil => intro k j h; exact absurd h (by simp)
  | cons b t ih =>
    intro k j h
    have htailnil : ∀ (i : Nat), i < k + 1 →
        (storeExp (k + 1) t).filter (fun m => outIdx m == some i) = [] := by
      intro i hik
      rw [List.filter_eq_nil_iff]
      intro m hm
      obtain ⟨i', hi', hki'⟩ := storeExp_idx_ge t (k + 1) m hm
      simp [hi']
      omega
    cases j with
    | zero =>
      simp only [Nat.add_zero, List.get]
      rw [storeExp, List.filter_append, List.filter_append,
        htailnil k (by omega), List.append_nil]
      by_cases hr : b.chunk.storage_type.python_refcounted = true <;>
        by_cases hcc : b.chunk.storage_type.cheap_copies = true <;>
          simp [hr, hcc, outIdx]
    | succ j' =>
      have hj' : j' < t.length := Nat.lt_of_succ_lt_succ h
      have harith : k + (j' + 1) = (k + 1) + j' := by omega
      rw [storeExp, List.filter_append, List.filter_append, harith,
        ih (k + 1) j' hj']
      have hhead1 : (List.filter (fun m => outIdx m == some ((k + 1) + j'))
          (if b.chunk.storage_type.python_refcounted then [OutMark.check k] else [])) = [] := by
        by_cases hr : b.chunk.storage_type.python_refcounted = true <;>
          simp [hr, outIdx] <;> omega
      have hhead2 : (List.filter (fun m => outIdx m == some ((k + 1) + j'))
          (if b.chunk.storage_type.cheap_copies then [OutMark.store k] else [])) = [] := by
        by_cases hcc : b.chunk.storage_type.cheap_copies = true <;>
          simp [hcc, outIdx] <;> omega
      rw [hhead1, hhead2, List.nil_append, List.nil_append]
      simp [List.get]

/-- The RR-interpreter `neg` instruction (generator.py docstring, lines
594-602): the `mpfr` type is not cheap to copy, so the output is pre-bound
to its stack destination. -/
def dNegRR : InstrSpec :=
  ⟨"neg", 10, [⟨rrStack, none, none⟩], [⟨rrStack, none, none⟩],
   "mpfr_neg(o0, i0, MPFR_RNDN);", false, false⟩

/-- Sanity check of the embedding against the generated RR `neg` code shown
in the generator.py docstring (lines 596-602): the output local is bound to
the next stack slot before the body and nothing is stored afterwards. -/
theorem gen_code_dNegRR_sanity :
    (gen_code dNegRR false).1 =
      [Line.caseHeader 10 "neg",
       Line.popIn "mpfr_ptr" 0 "stack",
       Line.popBindOut "mpfr_ptr" 0 "stack",
       Line.bodyCode "mpfr_neg(o0, i0, MPFR_RNDN);",
       Line.caseFooter] := by decide

/-- C5: for a declared output without a length operand, when generation
completes: if the output type is not cheap to copy, the output local is
bound to its destination storage before the body and no store of it is
emitted after the body (at most the validation check refers to it); if the
type is cheap to copy, a fresh local is declared before the body and its
single store to the destination comes after the body — preceded by the
validation check when the output is reference-counted. -/
theorem c5_output_emplace_or_copy (d : InstrSpec) (u : Bool) (i : Nat)
    (hi : i < d.outputs.length)
    (hok : (gen_code d u).2.2 = true)
    (hlen : (d.outputs.get ⟨i, hi⟩).len = none) :
    ∃ pre post, (gen_code d u).1.filterMap outMark = pre ++ OutMark.body :: post ∧
      ((d.outputs.get ⟨i, hi⟩).chunk.storage_type.cheap_copies = false →
        pre.filter (fun m => outIdx m == some i) = [OutMark.preBind i] ∧
        post.filter (fun m => outIdx m == some i) =
          (if (d.outputs.get ⟨i, hi⟩).chunk.storage_type.python_refcounted then
            [OutMark.check i] else [])) ∧
      ((d.outputs.get ⟨i, hi⟩).chunk.storage_type.cheap_copies = true →
        pre.filter (fun m => outIdx m == some i) = [OutMark.fresh i] ∧
        post.filter (fun m => outIdx m == some i) =
          (if (d.outputs.get ⟨i, hi⟩).chunk.storage_type.python_refcounted then
            [OutMark.check i, OutMark.store i] else [OutMark.store i])) := by
  refine ⟨setupExp 0 d.outputs, storeExp 0 d.outputs, gen_code_outMark d u hok,
    ?_, ?_⟩
  · intro hcc
    have h1 := setupExp_filter d.outputs 0 i hi
    have h2 := storeExp_filter d.outputs 0 i hi
    rw [Nat.zero_add] at h1 h2
    rw [hlen, hcc] at h1
    rw [hcc] at h2
    refine ⟨by simpa using h1, ?_⟩
    by_cases hr : (d.outputs.get ⟨i, hi⟩).chunk.storage_type.python_refcounted = true <;>
      simp [hr] at h2 ⊢ <;> exact h2
  · intro hcc
    have h1 := setupExp_filter d.outputs 0 i hi
    have h2 := storeExp_filter d.outputs 0 i hi
    rw [Nat.zero_add] at h1 h2
    rw [hlen, hcc] at h1
    rw [hcc] at h2
    refine ⟨by simpa using h1, ?_⟩
    by_cases hr : (d.outputs.get ⟨i, hi⟩).chunk.storage_type.python_refcounted = true
    · rw [h2]
      simp only [List.get_eq_getElem] at hr
      simp [hr]
    · rw [h2]
      simp only [List.get_eq_getElem] at hr
      simp [hr]

/-- Witness for C5 at the element-interpreter `neg` instruction (a
cheap-copy, reference-counted output: fresh local before the body, check
then store after it). -/
theorem c5_witness :
    ∃ pre post, (gen_code dNeg false).1.filterMap outMark =
        pre ++ OutMark.body :: post ∧
      ((dNeg.outputs.get ⟨0, by decide⟩).chunk.storage_type.cheap_copies = false →
        pre.filter (fun m => outIdx m == some 0) = [OutMark.preBind 0] ∧
        post.filter (fun m => outIdx m == some 0) =
          (if (dNeg.outputs.get ⟨0, by decide⟩).chunk.storage_type.python_refcounted then
            [OutMark.check 0] else [])) ∧
      ((dNeg.outputs.get ⟨0, by decide⟩).chunk.storage_type.cheap_copies = true →
        pre.filter (fun m => outIdx m == some 0) = [OutMark.fresh 0] ∧
        post.filter (fun m => outIdx m == some 0) =
          (if (dNeg.outputs.get ⟨0, by decide⟩).chunk.storage_type.python_refcounted then
            [OutMark.check 0, OutMark.store 0] else [OutMark.store 0])) :=
  c5_output_emplace_or_copy dNeg false 0 (by decide) (by decide) (by decide)

theorem storePass_ok_all (l : List Binding) :
    ∀ k u, (storePass k u l).2.2 = true →
      ∀ (j : Nat) (h : j < l.length),
        (l.get ⟨j, h⟩).chunk.storage_type.python_refcounted = true → k + j = 0 := by
  induction l with
  | nil => intro k u _ j h; exact absurd h (by simp)
  | cons b t ih =>
    intro k u hok j h href
    by_cases hr : b.chunk.storage_type.python_refcounted = true
    · by_cases hk : k = 0
      · subst hk
        have hok' : (storePass 1 true t).2.2 = true := by
          unfold storePass at hok; simpa [hr] using hok
        cases j with
        | zero => omega
        | succ j' =>
          have hj' : j' < t.length := Nat.lt_of_succ_lt_succ h
          have := ih 1 true hok' j' hj' (by simpa [List.get] using href)
          omega
      · exfalso; unfold storePass at hok; simp [hr, hk] at hok
    · have hok' : (storePass (k + 1) u t).2.2 = true := by
        unfold storePass at hok; simpa [hr] using hok
      cases j with
      | zero => exact absurd (by simpa [List.get] using href) hr
      | succ j' =>
        have hj' : j' < t.length := Nat.lt_of_succ_lt_succ h
        have := ih (k + 1) u hok' j' hj' (by simpa [List.get] using href)
        omega

theorem caseFooter_fwdPass (l : List Binding) :
    ∀ k, Line.caseFooter ∉ fwdPass k l := by
  induction l with
  | nil => intro k; simp [fwdPass]
  | cons b t ih =>
    intro k
    simp only [fwdPass, List.mem_append]
    rintro (hm | hm)
    · unfold emitFwdInput at hm
      cases ha : b.addr <;> cases hl : b.len <;> cases hs : b.chunk.is_stack <;>
        by_cases hc : b.chunk.name == "code" <;> simp [ha, hl, hs, hc] at hm
    · exact ih (k + 1) hm

theorem caseFooter_revPass (l : List Binding) :
    ∀ k, Line.caseFooter ∉ revPass k l := by
  induction l with
  | nil => intro k; simp [revPass]
  | cons b t ih =>
    intro k
    simp only [revPass, List.mem_append]
    rintro (hm | hm)
    · exact ih (k + 1) hm
    · unfold emitRevInput at hm
      cases hs : b.chunk.is_stack <;> cases hl : b.len <;>
        by_cases hr : b.chunk.is_python_refcounted_stack <;>
          simp [hs, hl, hr] at hm

theorem caseFooter_setupPass (l : List Binding) :
    ∀ k, Line.caseFooter ∉ setupPass k l := by
  induction l with
  | nil => intro k; simp [setupPass]
  | cons b t ih =>
    intro k
    simp only [setupPass, List.mem_append]
    rintro (hm | hm)
    · unfold emitOutputSetup at hm
      cases ha : b.addr <;> cases hl : b.len <;> cases hs : b.chunk.is_stack <;>
        cases hcc : b.chunk.storage_type.cheap_copies <;>
          simp [ha, hl, hs, hcc] at hm
    · exact ih (k + 1) hm

theorem caseFooter_decrefPass (hod : Bool) (l : List Binding) :
    ∀ k, Line.caseFooter ∉ decrefPass hod k l := by
  induction l with
  | nil => intro k; simp [decrefPass]
  | cons b t ih =>
    intro k
    simp only [decrefPass, List.mem_append]
    rintro (hm | hm)
    · unfold emitDecref at hm
      by_cases hr : b.chunk.is_python_refcounted_stack && !hod <;>
        cases hl : b.len <;> simp [hl, hr] at hm
    · exact ih (k + 1) hm

theorem caseFooter_storePass (l : List Binding) :
    ∀ k u, Line.caseFooter ∉ (storePass k u l).1 := by
  induction l with
  | nil => intro k u; simp [storePass]
  | cons b t ih =>
    intro k u
    unfold storePass
    cases hr : b.chunk.storage_type.python_refcounted <;>
      cases hcc : b.chunk.storage_type.cheap_copies <;>
        cases hs : b.chunk.is_stack <;>
          by_cases hk : k ≠ 0 <;>
            simp [hr, hcc, hs, hk, ih]

theorem gen_code_ne_nil (d : InstrSpec) (u : Bool) : (gen_code d u).1 ≠ [] := by
  unfold gen_code
  cases h : (storePass 0 (u || d.uses_error_handler) d.outputs).2.2 <;> simp [h]

/-- C10: code generation requires a Python reference-counted output to
occupy output position 0: for an instruction with a reference-counted
output at position 1 or later, `gen_code` fails its assertion (emission
aborts) and the block is never completed (its closing `break` footer is
never emitted). -/
theorem c10_refcounted_output_must_be_first (d : InstrSpec) (u : Bool)
    (j : Nat) (hj : j < d.outputs.length) (h1 : 1 ≤ j)
    (href : (d.outputs.get ⟨j, hj⟩).chunk.storage_type.python_refcounted = true) :
    (gen_code d u).2.2 = false ∧ Line.caseFooter ∉ (gen_code d u).1 := by
  have hnotok : (gen_code d u).2.2 ≠ true := by
    intro hok
    rw [gen_code_ok_iff] at hok
    have := storePass_ok_all d.outputs 0 (u || d.uses_error_handler) hok j hj href
    omega
  have hfalse : (gen_code d u).2.2 = false := by
    cases hb : (gen_code d u).2.2
    · rfl
    · exact absurd hb hnotok
  refine ⟨hfalse, ?_⟩
  have hsb : (storePass 0 (u || d.uses_error_handler) d.outputs).2.2 = false := by
    rw [gen_code_ok_iff] at hfalse; exact hfalse
  unfold gen_code
  simp [hsb, List.mem_append, caseFooter_fwdPass, caseFooter_revPass,
    caseFooter_setupPass, caseFooter_decrefPass, caseFooter_storePass]

/-- An instruction whose only reference-counted output sits at output
position 1 (position 0 holds a plain `double` output): it satisfies the
documented at-most-one-refcounted-output invariant, yet `gen_code` rejects
it. -/
def dBadSingle : InstrSpec :=
  ⟨"bad_single", 13, [],
   [⟨rdfStack, none, none⟩, ⟨elStack, none, none⟩], "o1 = make();", false, false⟩

/-- Witness for C10 at `dBadSingle`: its sole reference-counted output at
position 1 makes `gen_code` abort without completing the block. -/
theorem c10_witness :
    (gen_code dBadSingle false).2.2 = false ∧
    Line.caseFooter ∉ (gen_code dBadSingle false).1 :=
  c10_refcounted_output_must_be_first dBadSingle false 1 (by decide) (by decide)
    (by decide)

theorem filter_ref_le_one (l : List Binding)
    (H : ∀ (j : Nat) (h : j < l.length),
      (l.get ⟨j, h⟩).chunk.storage_type.python_refcounted = true → j = 0) :
    (l.filter (fun b => b.chunk.storage_type.python_refcounted)).length ≤ 1 := by
  cases l with
  | nil => simp
  | cons b t =>
    have htnil : t.filter (fun b => b.chunk.storage_type.python_refcounted) = [] := by
      rw [List.filter_eq_nil_iff]
      intro x hx hrx
      obtain ⟨n, hn⟩ := List.mem_iff_get.mp hx
      have href : ((b :: t).get ⟨n.val + 1, Nat.succ_lt_succ n.isLt⟩).chunk.storage_type.python_refcounted = true := by
        have hget : (b :: t).get ⟨n.val + 1, Nat.succ_lt_succ n.isLt⟩ = t.get n := by
          simp [List.get]
        rw [hget, hn]
        exact hrx
      have := H (n.val + 1) (Nat.succ_lt_succ n.isLt) href
      omega
    by_cases hb : b.chunk.storage_type.python_refcounted = true <;>
      simp [hb, htnil]

/-- An instruction with two Python reference-counted outputs (a malformed
spec per the documented at-most-one invariant). -/
def dTwoRef : InstrSpec :=
  ⟨"two_ref", 14, [], [⟨elStack, none, none⟩, ⟨elStack, none, none⟩],
   "o0 = make(); o1 = make();", false, false⟩

/-- A spec containing the malformed two-refcounted-output instruction. -/
def sTwoRef : InterpreterSpec :=
  ⟨"el2", [elArgs, elStack], [dTwoRef], none, "NULL", none, false⟩

/-- C6 fails on the code: for the malformed spec `sTwoRef` (an instruction
claiming two reference-counted outputs), constructing the generator
succeeds with no validation at all, and the failure only happens inside
`gen_code` — after code text for the instruction has already been emitted
(the fragments written before the failing assert are nonempty). -/
theorem c6_counterexample :
    (mkInterpreterGenerator sTwoRef).uses_error_handler = false ∧
    (mkInterpreterGenerator sTwoRef)._spec = sTwoRef ∧
    (gen_code dTwoRef false).2.2 = false ∧
    (gen_code dTwoRef false).1 ≠ [] := by decide

/-- C6 amended: an instruction claiming more than one reference-counted
output is rejected, but at generation time, not construction time: its
`gen_code` fails the `assert i == 0` after having already emitted a
nonempty prefix of the instruction's code text. -/
theorem c6_amended_fails_during_generation (d : InstrSpec) (u : Bool)
    (h2 : 2 ≤ (d.outputs.filter
      (fun b => b.chunk.storage_type.python_refcounted)).length) :
    (gen_code d u).2.2 = false ∧ (gen_code d u).1 ≠ [] := by
  constructor
  · cases hb : (gen_code d u).2.2
    · rfl
    · exfalso
      rw [gen_code_ok_iff] at hb
      have hall := storePass_ok_all d.outputs 0 (u || d.uses_error_handler) hb
      have hle := filter_ref_le_one d.outputs
        (fun j hj hr => by have := hall j hj hr; omega)
      omega
  · exact gen_code_ne_nil d u

/-- Witness for the amended C6 at the two-refcounted-output instruction. -/
theorem c6_amended_witness :
    (gen_code dTwoRef false).2.2 = false ∧ (gen_code dTwoRef false).1 ≠ [] :=
  c6_amended_fails_during_generation dTwoRef false (by decide)

/-- Whether an instruction declares a Python reference-counted output. -/
def hasRefOutput (d : InstrSpec) : Bool :=
  d.outputs.any (fun b => b.chunk.storage_type.python_refcounted)

/-- Whether an instruction makes the generator need the error label: its
`uses_error_handler` flag is set (generator.py lines 98-99) or it has a
Python reference-counted output (line 201). -/
def needsErrorLabel (d : InstrSpec) : Bool :=
  d.uses_error_handler || hasRefOutput d

theorem storePass_ok_indep (l : List Binding) :
    ∀ k u, (storePass k u l).2.2 = (storePass k false l).2.2 := by
  induction l with
  | nil => intro k u; rfl
  | cons b t ih =>
    intro k u
    unfold storePass
    cases hr : b.chunk.storage_type.python_refcounted <;>
      by_cases hk : k ≠ 0 <;> simp [hr, hk, ih]

theorem gen_code_ok_indep (d : InstrSpec) (u : Bool) :
    (gen_code d u).2.2 = (gen_code d false).2.2 := by
  rw [gen_code_ok_iff, gen_code_ok_iff]
  rw [storePass_ok_indep d.outputs 0 (u || d.uses_error_handler),
    storePass_ok_indep d.outputs 0 (false || d.uses_error_handler)]

theorem storePass_flag (l : List Binding) :
    ∀ k u, (storePass k u l).2.2 = true →
      (storePass k u l).2.1 =
        (u || l.any (fun b => b.chunk.storage_type.python_refcounted)) := by
  induction l with
  | nil => intro k u _; simp [storePass]
  | cons b t ih =>
    intro k u hok
    by_cases hr : b.chunk.storage_type.python_refcounted = true
    · by_cases hk : k = 0
      · subst hk
        have hok' : (storePass 1 true t).2.2 = true := by
          unfold storePass at hok; simpa [hr] using hok
        unfold storePass
        simp [hr, ih 1 true hok']
      · exfalso; unfold storePass at hok; simp [hr, hk] at hok
    · have hok' : (storePass (k + 1) u t).2.2 = true := by
        unfold storePass at hok; simpa [hr] using hok
      unfold storePass
      simp [hr, ih (k + 1) u hok']

theorem gen_code_flag (d : InstrSpec) (u : Bool)
    (hok : (gen_code d u).2.2 = true) :
    (gen_code d u).2.1 = (u || needsErrorLabel d) := by
  have hsok : (storePass 0 (u || d.uses_error_handler) d.outputs).2.2 = true := by
    rw [← gen_code_ok_iff]; exact hok
  unfold gen_code
  simp [hsok, storePass_flag d.outputs 0 (u || d.uses_error_handler) hsok,
    needsErrorLabel, hasRefOutput, Bool.or_assoc]

theorem gen_all_ok_mem (l : List InstrSpec) :
    ∀ u, (gen_all l u).2.2 = true →
      ∀ d ∈ l, (gen_code d false).2.2 = true := by
  induction l with
  | nil => intro u _ d hd; exact absurd hd (by simp)
  | cons d0 t ih =>
    intro u hok d hd
    unfold gen_all at hok
    by_cases hd0 : (gen_code d0 u).2.2 = true
    · rcases List.mem_cons.mp hd with rfl | hmem
      · rw [← gen_code_ok_indep d u]; exact hd0
      · refine ih ((gen_code d0 u).2.1) ?_ d hmem
        simpa [hd0] using hok
    · exfalso; simp [hd0] at hok

theorem gen_all_flag (l : List InstrSpec) :
    ∀ u, (gen_all l u).2.2 = true →
      (gen_all l u).2.1 = (u || l.any needsErrorLabel) := by
  induction l with
  | nil => intro u _; simp [gen_all]
  | cons d t ih =>
    intro u hok
    unfold gen_all at hok ⊢
    by_cases hd : (gen_code d u).2.2 = true
    · have hok' : (gen_all t (gen_code d u).2.1).2.2 = true := by
        simpa [hd] using hok
      simp only [hd, if_true]
      rw [ih _ hok', gen_code_flag d u hd]
      simp [Bool.or_assoc]
    · exfalso; simp [hd] at hok

/-- Marks the interpreter-level fragments (function header, switch close,
error label, closing brace), which `gen_code` never emits. -/
def interpMark : Line → Option Unit
  | .interpHeader _ => some ()
  | .switchEnd => some ()
  | .errorLabel _ => some ()
  | .interpEnd => some ()
  | _ => none

theorem emitFwdInput_interpMark (k : Nat) (b : Binding) :
    (emitFwdInput k b).filterMap interpMark = [] := by
  unfold emitFwdInput
  cases b.addr <;> cases b.len <;> cases hs : b.chunk.is_stack <;>
    by_cases hc : b.chunk.name == "code" <;>
      simp [interpMark, hs, hc, List.filterMap_append]

theorem fwdPass_interpMark (l : List Binding) :
    ∀ k, (fwdPass k l).filterMap interpMark = [] := by
  induction l with
  | nil => intro k; rfl
  | cons b t ih =>
    intro k; simp [fwdPass, List.filterMap_append, ih, emitFwdInput_interpMark]

theorem emitRevInput_interpMark (k : Nat) (b : Binding) :
    (emitRevInput k b).filterMap interpMark = [] := by
  unfold emitRevInput
  cases hs : b.chunk.is_stack <;> cases hl : b.len <;>
    by_cases hr : b.chunk.is_python_refcounted_stack <;>
      simp [interpMark, hr, List.filterMap_append]

theorem revPass_interpMark (l : List Binding) :
    ∀ k, (revPass k l).filterMap interpMark = [] := by
  induction l with
  | nil => intro k; rfl
  | cons b t ih =>
    intro k; simp [revPass, List.filterMap_append, ih, emitRevInput_interpMark]

theorem emitOutputSetup_interpMark (k : Nat) (b : Binding) :
    (emitOutputSetup k b).filterMap interpMark = [] := by
  unfold emitOutputSetup
  cases b.addr <;> cases b.len <;> cases hs : b.chunk.is_stack <;>
    cases hcc : b.chunk.storage_type.cheap_copies <;>
      simp [interpMark, hs, hcc, List.filterMap_append]

theorem setupPass_interpMark (l : List Binding) :
    ∀ k, (setupPass k l).filterMap interpMark = [] := by
  induction l with
  | nil => intro k; rfl
  | cons b t ih =>
    intro k; simp [setupPass, List.filterMap_append, ih, emitOutputSetup_interpMark]

theorem decrefPass_interpMark (hod : Bool) (l : List Binding) :
    ∀ k, (decrefPass hod k l).filterMap interpMark = [] := by
  induction l with
  | nil => intro k; rfl
  | cons b t ih =>
    intro k
    simp only [decrefPass, List.filterMap_append, ih, List.append_nil]
    unfold emitDecref
    by_cases hr : b.chunk.is_python_refcounted_stack && !hod <;>
      cases b.len <;> simp [interpMark, hr]

theorem storePass_interpMark (l : List Binding) :
    ∀ k u, (storePass k u l).1.filterMap interpMark = [] := by
  induction l with
  | nil => intro k u; rfl
  | cons b t ih =>
    intro k u
    unfold storePass
    cases hr : b.chunk.storage_type.python_refcounted <;>
      cases hcc : b.chunk.storage_type.cheap_copies <;>
        cases hs : b.chunk.is_stack <;>
          by_cases hk : k ≠ 0 <;>
            simp [hr, hcc, hs, hk, interpMark, List.filterMap_append, ih]

theorem gen_code_interpMark (d : InstrSpec) (u : Bool) :
    (gen_code d u).1.filterMap interpMark = [] := by
  unfold gen_code
  cases h : (storePass 0 (u || d.uses_error_handler) d.outputs).2.2 <;>
    simp [h, List.filterMap_append, interpMark, fwdPass_interpMark,
      revPass_interpMark, setupPass_interpMark, decrefPass_interpMark,
      storePass_interpMark]

theorem gen_all_interpMark (l : List InstrSpec) :
    ∀ u, (gen_all l u).1.filterMap interpMark = [] := by
  induction l with
  | nil => intro u; rfl
  | cons d t ih =>
    intro u
    unfold gen_all
    by_cases hd : (gen_code d u).2.2 = true <;>
      simp [hd, List.filterMap_append, gen_code_interpMark, ih]

/-- Recognizes the `error:` label fragment. -/
def isErrLabelLine : Line → Bool
  | .errorLabel _ => true
  | _ => false

theorem errFilter_nil_of_interpMark (ls : List Line)
    (h : ls.filterMap interpMark = []) : ls.filter isErrLabelLine = [] := by
  rw [List.filter_eq_nil_iff]
  intro x hx
  have hx' := List.filterMap_eq_nil.mp h x hx
  cases x <;> simp_all [interpMark, isErrLabelLine]

/-- An instruction with a Python reference-counted output whose `gen_code`
completes has the `goto error;` branch in its emitted block. -/
theorem gotoError_mem_gen_code (d : InstrSpec) (u : Bool)
    (hok : (gen_code d u).2.2 = true) (href : hasRefOutput d = true) :
    Line.gotoError ∈ (gen_code d u).1 := by
  have hsok : (storePass 0 (u || d.uses_error_handler) d.outputs).2.2 = true := by
    rw [← gen_code_ok_iff]; exact hok
  obtain ⟨b, hbmem, hrb⟩ := List.any_eq_true.mp href
  obtain ⟨n, hn⟩ := List.mem_iff_get.mp hbmem
  have hgetref : (d.outputs.get ⟨n.val, n.isLt⟩).chunk.storage_type.python_refcounted = true := by
    have : d.outputs.get ⟨n.val, n.isLt⟩ = b := by
      rw [← hn]
    rw [this]; exact hrb
  have hzero := storePass_ok_all d.outputs 0 (u || d.uses_error_handler) hsok
    n.val n.isLt hgetref
  have hn0 : n.val = 0 := by omega
  cases houts : d.outputs with
  | nil =>
    exfalso
    have hlt := n.isLt
    have hlen : d.outputs.length = 0 := by rw [houts]; rfl
    omega
  | cons c t =>
    have hrc : c.chunk.storage_type.python_refcounted = true := by
      have : d.outputs.get ⟨0, by rw [houts]; simp⟩ = c := by
        simp [houts, List.get]
      have h0 : (d.outputs.get ⟨0, by rw [houts]; simp⟩).chunk.storage_type.python_refcounted = true := by
        have heq : (⟨0, by rw [houts]; simp⟩ : Fin d.outputs.length) = ⟨n.val, n.isLt⟩ := by
          simp [hn0]
        rw [heq]; exact hgetref
      rw [this] at h0; exact h0
    have hmem : Line.gotoError ∈
        (storePass 0 (u || d.uses_error_handler) d.outputs).1 := by
      rw [houts]
      unfold storePass
      simp [hrc]
    unfold gen_code
    simp [hsok, List.mem_append, hmem]

/-- The element interpreter spec from the generator.py docstrings: one
reference-counted `neg` instruction, argument and stack chunks. -/
def sEl : InterpreterSpec :=
  ⟨"el", [elArgs, elStack], [dNeg], some "PyObject*", "NULL", none, false⟩

/-- An RDF-style instruction that uses the error handler from its own body
(`uses_error_handler` set) while producing no reference-counted output. -/
def dJump : InstrSpec :=
  ⟨"jump_on_nan", 2, [⟨rdfStack, none, none⟩], [], "if (isnan(i0)) goto error;",
   true, false⟩

/-- An RDF-style spec containing only `dJump`: no instruction has a
reference-counted output, yet the generated interpreter has an error
label. -/
def sJump : InterpreterSpec :=
  ⟨"rdfj", [rdfArgs, rdfStack], [dJump], some "double", "-1", none, true⟩

/-- C4 fails on the code: in the spec `sJump` no instruction has a Python
reference-counted output, yet the generated interpreter does contain an
error label, because its instruction sets `uses_error_handler` (generator.py
lines 98-99 make that flag alone force the label). -/
theorem c4_counterexample :
    (∀ d ∈ sJump.instr_descs, hasRefOutput d = false) ∧
    (write_interpreter sJump).2 = true ∧
    (write_interpreter sJump).1.filter isErrLabelLine = [Line.errorLabel "-1"] := by
  decide

/-- C4 amended: when generation completes, the generated interpreter
contains exactly one error label (returning the spec's `err_return`
sentinel) if some instruction needs it — that is, has a Python
reference-counted output *or* sets `uses_error_handler` — and none
otherwise; and the block of every instruction with a reference-counted
output branches to the label with `goto error;`. -/
theorem c4_amended_single_error_label (s : InterpreterSpec)
    (hok : (write_interpreter s).2 = true) :
    ((write_interpreter s).1.filter isErrLabelLine =
      (if s.instr_descs.any needsErrorLabel then [Line.errorLabel s.err_return]
       else []))
    ∧ ∀ d ∈ s.instr_descs, hasRefOutput d = true →
        Line.gotoError ∈ (gen_code d false).1 := by
  have hgok : (gen_all s.instr_descs false).2.2 = true := by
    by_cases h : (gen_all s.instr_descs false).2.2 = true
    · exact h
    · exfalso; unfold write_interpreter at hok; simp [h] at hok
  constructor
  · have hflag : (gen_all s.instr_descs false).2.1 =
        s.instr_descs.any needsErrorLabel := by
      rw [gen_all_flag s.instr_descs false hgok]
      simp
    have hbody : (gen_all s.instr_descs false).1.filter isErrLabelLine = [] :=
      errFilter_nil_of_interpMark _ (gen_all_interpMark s.instr_descs false)
    unfold write_interpreter
    cases hany : s.instr_descs.any needsErrorLabel <;>
      simp [hgok, hflag, hany, List.filter_append, hbody, isErrLabelLine]
  · intro d hd href
    have hdok := gen_all_ok_mem s.instr_descs false hgok d hd
    exact gotoError_mem_gen_code d false hdok href

/-- Witness for the amended C4 at the element interpreter spec `sEl`. -/
theorem c4_witness :
    ((write_interpreter sEl).1.filter isErrLabelLine =
      (if sEl.instr_descs.any needsErrorLabel then [Line.errorLabel sEl.err_return]
       else []))
    ∧ ∀ d ∈ sEl.instr_descs, hasRefOutput d = true →
        Line.gotoError ∈ (gen_code d false).1 :=
  c4_amended_single_error_label sEl (by decide)

/-- Call-section marks of the wrapper (claim C8): the try opener, the two
interpreter call forms, the `except BaseException:` opener, a chunk
cleanup, the bare `raise`, and the `call_c` method header. -/
inductive WMark
  | tryB
  | call
  | callC
  | exceptB
  | cleanup (ch : String)
  | reraise
  | ccdef
deriving DecidableEq

/-- The call-section event, if any, represented by a wrapper fragment. -/
def wMark : WLine → Option WMark
  | .tryBegin => some .tryB
  | .callInterp _ _ _ => some .call
  | .callCInterp _ _ => some .callC
  | .exceptBase => some .exceptB
  | .cleanupChunk ch => some (.cleanup ch)
  | .reraise => some .reraise
  | .callCDef _ => some .ccdef
  | _ => none

theorem wMark_initMembers (cs : List MemoryChunk) :
    List.filterMap (wMark ∘ fun ch => WLine.initMember ch.name) cs = [] := by
  induction cs <;> simp_all [wMark, Function.comp]

theorem wMark_deallocMembers (cs : List MemoryChunk) :
    List.filterMap (wMark ∘ fun ch => WLine.deallocMember ch.name) cs = [] := by
  induction cs <;> simp_all [wMark, Function.comp]

theorem wMark_callLocals (cs : List MemoryChunk) :
    List.filterMap (wMark ∘ fun ch => WLine.callLocals ch.name) cs = [] := by
  induction cs <;> simp_all [wMark, Function.comp]

theorem wMark_cleanups (cs : List MemoryChunk) :
    List.filterMap (wMark ∘ fun ch => WLine.cleanupChunk ch.name) cs =
      cs.map (fun ch => WMark.cleanup ch.name) := by
  induction cs <;> simp_all [wMark, Function.comp]

/-- C8: in the generated wrapper, the call sections are exactly: when some
chunk needs cleanup on error, both the `__call__` entry point and (when the
spec implements it) the `call_c` entry point wrap the interpreter call in
`try/except BaseException` whose handler runs the cleanup of every chunk
needing it, in chunk order, and then re-raises; when no chunk needs
cleanup, the bare call with no exception wrapper. -/
theorem c8_wrapper_call_cleanup (s : InterpreterSpec) (ls : List WLine)
    (h : write_wrapper s = some ls) :
    ls.filterMap wMark =
      (if s.chunks.any (fun ch => ch.needs_cleanup_on_error) then
        [WMark.tryB, WMark.call, WMark.exceptB] ++
          (s.chunks.filter (fun ch => ch.needs_cleanup_on_error)).map
            (fun ch => WMark.cleanup ch.name) ++ [WMark.reraise]
       else [WMark.call]) ++
      (if s.implement_call_c then
        WMark.ccdef ::
          ((if s.chunks.any (fun ch => ch.needs_cleanup_on_error) then
            [WMark.tryB, WMark.callC, WMark.exceptB] ++
              (s.chunks.filter (fun ch => ch.needs_cleanup_on_error)).map
                (fun ch => WMark.cleanup ch.name) ++ [WMark.reraise]
           else [WMark.callC]) ++ [])
       else []) := by
  unfold write_wrapper at h
  cases hfind : (s.chunks.reverse).find? (fun ch => ch.name == "args") with
  | none => rw [hfind] at h; exact absurd h (by simp)
  | some arg_ch =>
    rw [hfind] at h
    simp only [Option.some.injEq] at h
    subst h
    cases hdc : s.chunks.any (fun ch => ch.needs_cleanup_on_error) <;>
      cases hcc : s.implement_call_c <;>
        cases hrt : s.return_type.isSome <;>
          simp [hdc, hcc, hrt, wMark, List.filterMap_append, wMark_initMembers,
            wMark_deallocMembers, wMark_callLocals, wMark_cleanups]

/-- The element interpreter spec with the fast `call_c` entry point
requested, for exercising both wrapped call sections. -/
def sElC : InterpreterSpec :=
  ⟨"elc", [elArgs, elStack], [dNeg], some "PyObject*", "NULL", none, true⟩

/-- Witness for C8 at `sElC`: its reference-counted stack chunk forces the
try/except cleanup wrapper around both entry points. -/
theorem c8_witness :
    ((write_wrapper sElC).getD []).filterMap wMark =
      (if sElC.chunks.any (fun ch => ch.needs_cleanup_on_error) then
        [WMark.tryB, WMark.call, WMark.exceptB] ++
          (sElC.chunks.filter (fun ch => ch.needs_cleanup_on_error)).map
            (fun ch => WMark.cleanup ch.name) ++ [WMark.reraise]
       else [WMark.call]) ++
      (if sElC.implement_call_c then
        WMark.ccdef ::
          ((if sElC.chunks.any (fun ch => ch.needs_cleanup_on_error) then
            [WMark.tryB, WMark.callC, WMark.exceptB] ++
              (sElC.chunks.filter (fun ch => ch.needs_cleanup_on_error)).map
                (fun ch => WMark.cleanup ch.name) ++ [WMark.reraise]
           else [WMark.callC]) ++ [])
       else []) :=
  c8_wrapper_call_cleanup sElC ((write_wrapper sElC).getD []) (by decide)
